import Mathlib

/-!
Verification development for `bundle_adjust/rpc_utils.py`.

The numeric values flowing through `compute_height` are modelled by `Fl`,
rationals extended with a NaN element reproducing the IEEE behaviour the
source relies on (`0/0` is NaN, NaN propagates through arithmetic, every
comparison against NaN is false, `np.max` propagates NaN).  In this source
the only division, `diagabdot / diagaadot`, has a sum of two squares as
denominator, so the denominator vanishes only when the numerator does too:
division by zero is the `0/0` case and is modelled as NaN.

Camera models (`rpcm.RPCModel` / `projective_model.ProjModel`) are external
collaborators: they are embedded as abstract localization / projection
functions.  Raster access (`rasterio`), projections (`pyproj`) and the
`s2p` helpers are likewise external and appear as abstract parameters,
except `points_apply_homography`, which is given its standard meaning.
-/

/-- A float-like scalar: a rational number or NaN. -/
inductive Fl where
  | nan : Fl
  | val : ℚ → Fl
deriving DecidableEq

/-- Addition with NaN propagation. -/
def fadd : Fl → Fl → Fl
  | Fl.val a, Fl.val b => Fl.val (a + b)
  | _, _ => Fl.nan

/-- Subtraction with NaN propagation. -/
def fsub : Fl → Fl → Fl
  | Fl.val a, Fl.val b => Fl.val (a - b)
  | _, _ => Fl.nan

/-- Multiplication with NaN propagation. -/
def fmul : Fl → Fl → Fl
  | Fl.val a, Fl.val b => Fl.val (a * b)
  | _, _ => Fl.nan

/-- Division.  NaN operands propagate; a zero denominator yields NaN (in
this program the only zero-denominator case is `0/0`, see the header). -/
def fdiv : Fl → Fl → Fl
  | Fl.val a, Fl.val b => if b = 0 then Fl.nan else Fl.val (a / b)
  | _, _ => Fl.nan

/-- Absolute value (`np.fabs`), NaN propagating. -/
def fabsFl : Fl → Fl
  | Fl.val a => Fl.val |a|
  | Fl.nan => Fl.nan

/-- Pairwise maximum as used by the `np.max` reduction: NaN propagates. -/
def fmaxFl : Fl → Fl → Fl
  | Fl.val a, Fl.val b => Fl.val (max a b)
  | _, _ => Fl.nan

/-- Strict comparison: any comparison involving NaN is false. -/
def fltFl : Fl → Fl → Bool
  | Fl.val a, Fl.val b => decide (a < b)
  | _, _ => false

/-- The `np.max` reduction: raises (`none`) on an empty array, otherwise
folds the NaN-propagating pairwise maximum. -/
def npMax (l : List Fl) : Option Fl :=
  match l with
  | [] => none
  | x :: xs => some (xs.foldl fmaxFl x)

/-- A camera model as used by `compute_height`: an external collaborator
exposing `localization` and `projection` (either an `rpcm.RPCModel` or a
`projective_model.ProjModel`). -/
structure CamModel where
  localization : Fl → Fl → Fl → Fl × Fl
  projection : Fl → Fl → Fl → Fl × Fl

/-- Source `find_corresponding_point` (elementwise): localize in image a,
reproject into image b at the same altitude. -/
def find_corresponding_point (model_a model_b : CamModel) (x y z : Fl) :
    Fl × Fl × Fl :=
  let t := model_a.localization x y z
  let p := model_b.projection t.1 t.2 z
  (p.1, p.2, z)

/-- The two image-b coordinates of `find_corresponding_point`. -/
def fcp2 (model_a model_b : CamModel) (x y z : Fl) : Fl × Fl :=
  ((find_corresponding_point model_a model_b x y z).1,
   (find_corresponding_point model_a model_b x y z).2.1)

/-- Step size of the altitude probe (`HSTEP = 1`). -/
def HSTEP : Fl := Fl.val 1

/-- All quantities computed for one point in one iteration of the
`compute_height` loop.  `errSq` is the radicand of the returned residual:
the source returns `err = sqrt errSq` and never branches on `err`. -/
structure CHStep where
  r0 : Fl × Fl
  r1 : Fl × Fl
  a : Fl × Fl
  b : Fl × Fl
  h0_inc : Fl
  q : Fl × Fl
  errSq : Fl
  h1 : Fl
deriving DecidableEq

/-- One point of one iteration of the `compute_height` loop body
(source lines 191-216), elementwise form of the vectorized code. -/
def chPoint (model_a model_b : CamModel) (x1 y1 x2 y2 h0 : Fl) : CHStep :=
  let r0 := fcp2 model_a model_b x1 y1 h0
  let r1 := fcp2 model_a model_b x1 y1 (fadd h0 HSTEP)
  let a := (fsub r1.1 r0.1, fsub r1.2 r0.2)
  let b := (fsub x2 r0.1, fsub y2 r0.2)
  let diagabdot := fadd (fmul a.1 b.1) (fmul a.2 b.2)
  let diagaadot := fadd (fmul a.1 a.1) (fmul a.2 a.2)
  let h0_inc := fdiv diagabdot diagaadot
  let q := (fadd r0.1 (fmul h0_inc a.1), fadd r0.2 (fmul h0_inc a.2))
  let tmp := (fsub q.1 x2, fsub q.2 y2)
  let errSq := fadd (fmul tmp.1 tmp.1) (fmul tmp.2 tmp.2)
  let h1 := fadd h0 (fmul h0_inc HSTEP)
  ⟨r0, r1, a, b, h0_inc, q, errSq, h1⟩

/-- The probe displacement `a = r1 - r0` of a point at height `h0`. -/
def probeDisp (model_a model_b : CamModel) (x y h0 : Fl) : Fl × Fl :=
  let r0 := fcp2 model_a model_b x y h0
  let r1 := fcp2 model_a model_b x y (fadd h0 HSTEP)
  (fsub r1.1 r0.1, fsub r1.2 r0.2)

/-- One whole-batch iteration of the `compute_height` loop body: the
vectorized numpy statements act elementwise on the zipped batches. -/
def chBody (model_a model_b : CamModel) :
    List Fl → List Fl → List Fl → List Fl → List Fl → List CHStep
  | x :: xs, y :: ys, u :: us, v :: vs, h :: hs =>
      chPoint model_a model_b x y u v h :: chBody model_a model_b xs ys us vs hs
  | _, _, _, _, _ => []

/-- The `for i in range(100)` loop of `compute_height` with explicit fuel.
Each pass runs the body, then breaks iff `np.max(np.fabs(h0_inc)) < 0.001`;
`none` models the `ValueError` that `np.max` raises on an empty reduction.
The returned naturals count the iterations executed. -/
def chRun (model_a model_b : CamModel) (x1 y1 x2 y2 : List Fl) :
    ℕ → List Fl → List Fl → List Fl → ℕ →
    Option (List Fl × List Fl × List Fl × ℕ)
  | 0, h0, err, inc, c => some (h0, err, inc, c)
  | fuel + 1, h0, _, _, c =>
      let out := chBody model_a model_b x1 y1 x2 y2 h0
      let h1 := out.map CHStep.h1
      let e1 := out.map CHStep.errSq
      let i1 := out.map CHStep.h0_inc
      match npMax (i1.map fabsFl) with
      | none => none
      | some mx =>
          if fltFl mx (Fl.val (1 / 1000)) then some (h1, e1, i1, c + 1)
          else chRun model_a model_b x1 y1 x2 y2 fuel h1 e1 i1 (c + 1)

/-- Initial batch state: `np.zeros(n)`. -/
def chInit (x1 : List Fl) : List Fl := x1.map fun _ => Fl.val 0

/-- Source `compute_height`.  Returns the final heights, the radicands of
the returned residuals (the residual itself is their square root, which the
loop never inspects), the last increments, and the number of iterations
executed; `none` models the `ValueError` raised by `np.max` on an empty
batch. -/
def compute_height (model_a model_b : CamModel) (x1 y1 x2 y2 : List Fl) :
    Option (List Fl × List Fl × List Fl × ℕ) :=
  chRun model_a model_b x1 y1 x2 y2 100 (chInit x1) (chInit x1) (chInit x1) 0

/-- The height vector after `k` (break-free) passes of the loop body. -/
def hStep (model_a model_b : CamModel) (x1 y1 x2 y2 : List Fl)
    (h0 : List Fl) : List Fl :=
  (chBody model_a model_b x1 y1 x2 y2 h0).map CHStep.h1

/-- Heights reached after `k` iterations of the loop starting from zeros. -/
def chIterH (model_a model_b : CamModel) (x1 y1 x2 y2 : List Fl) : ℕ → List Fl
  | 0 => chInit x1
  | k + 1 => hStep model_a model_b x1 y1 x2 y2 (chIterH model_a model_b x1 y1 x2 y2 k)

/-- Exact-rational camera model for the range / ROI utilities (the same
external `rpcm.RPCModel` collaborator, used here on paths where float
special values play no role). -/
structure RPCModel where
  localization : ℚ → ℚ → ℚ → ℚ × ℚ
  projection : ℚ → ℚ → ℚ → ℚ × ℚ
  alt_offset : ℚ
  alt_scale : ℚ

/-- An exogenous elevation source (external: `rasterio` windowed read over
the file named by `cfg['exogenous_dem']`).  `query` returns the min/max
heights found in the geodesic box, or `none` when the clipped access
window is empty (`w == 0 or h == 0` in the source). -/
structure Dem where
  query : ℚ → ℚ → ℚ → ℚ → Option (ℚ × ℚ)

/-- The fields of the shared `s2p.config.cfg` dictionary read or written
by this module. -/
structure Cfg where
  exogenous_dem : Option Dem
  rpc_alt_range_scale_factor : ℚ
  exogenous_dem_geoid_mode : Bool
  utm_zone : Option String
  utm_bbx : Option (ℚ × ℚ × ℚ × ℚ)

/-- Minimum of a list (np.min / Python min; both raise on an empty input,
which never occurs at the call sites modelled here). -/
def listMin (l : List ℚ) : ℚ :=
  match l with
  | [] => 0
  | x :: xs => xs.foldl min x

/-- Maximum of a list (np.max / Python max on a nonempty input). -/
def listMax (l : List ℚ) : ℚ :=
  match l with
  | [] => 0
  | x :: xs => xs.foldl max x

/-- Zip of three lists into triples. -/
def zip3 {α β γ : Type} : List α → List β → List γ → List (α × β × γ)
  | a :: as, b :: bs, c :: cs => (a, b, c) :: zip3 as bs cs
  | _, _, _ => []

/-- Source `altitude_range_coarse`. -/
def altitude_range_coarse (rpc : RPCModel) (scale_factor : ℚ) : ℚ × ℚ :=
  (rpc.alt_offset - scale_factor * rpc.alt_scale,
   rpc.alt_offset + scale_factor * rpc.alt_scale)

/-- Source `geodesic_bounding_box`: localize the 8 vertices of
{2D ROI} x [alt_offset - alt_scale, alt_offset + alt_scale] and take the
lon/lat extrema. -/
def geodesic_bounding_box (rpc : RPCModel) (x y w h : ℚ) : ℚ × ℚ × ℚ × ℚ :=
  let m := rpc.alt_offset - rpc.alt_scale
  let M := rpc.alt_offset + rpc.alt_scale
  let xs : List ℚ := [x, x, x, x, x + w, x + w, x + w, x + w]
  let ys : List ℚ := [y, y, y + h, y + h, y, y, y + h, y + h]
  let as : List ℚ := [m, M, m, M, m, M, m, M]
  let lonlat := (zip3 xs ys as).map fun t => rpc.localization t.1 t.2.1 t.2.2
  let lon := lonlat.map Prod.fst
  let lat := lonlat.map Prod.snd
  (listMin lon, listMax lon, listMin lat, listMax lat)

/-- Source `min_max_heights_from_bbx`.  The raster plumbing (reprojection
of the box corners, window clipping, nodata masking) is the external
`query`; `geoid` is the external `geographiclib.geoid_above_ellipsoid`.
When the access window is out of range the coarse range is returned. -/
def min_max_heights_from_bbx (geoid : ℚ → ℚ → ℚ) (cfg : Cfg) (im : Dem)
    (lon_m lon_M lat_m lat_M : ℚ) (rpc : RPCModel) : ℚ × ℚ :=
  match im.query lon_m lon_M lat_m lat_M with
  | some (hmin, hmax) =>
      if cfg.exogenous_dem_geoid_mode then
        let g := geoid ((lat_m + lat_M) / 2) ((lon_m + lon_M) / 2)
        (hmin + g, hmax + g)
      else (hmin, hmax)
  | none => altitude_range_coarse rpc cfg.rpc_alt_range_scale_factor

/-- Source `altitude_range`: margins are applied in the exogenous branch
only; the `exogenous_dem is None` branch returns the coarse range as is. -/
def altitude_range (geoid : ℚ → ℚ → ℚ) (cfg : Cfg) (rpc : RPCModel)
    (x y w h : ℚ) (margin_top margin_bottom : ℚ) : ℚ × ℚ :=
  let bb := geodesic_bounding_box rpc x y w h
  match cfg.exogenous_dem with
  | some dem =>
      let hm := min_max_heights_from_bbx geoid cfg dem bb.1 bb.2.1 bb.2.2.1 bb.2.2.2 rpc
      (hm.1 + margin_bottom, hm.2 + margin_top)
  | none => altitude_range_coarse rpc cfg.rpc_alt_range_scale_factor

/-- Exact `np.linspace(a, b, n)`: `a + i*(b-a)/(n-1)` for `i < n`.  For
`n = 1` the rational convention `(b-a)/0 = 0` gives `[a]`, matching
numpy's single-sample behaviour; `n = 0` gives the empty list. -/
def linspace (a b : ℚ) (n : ℕ) : List ℚ :=
  (List.range n).map fun (i : ℕ) => a + (i : ℚ) * ((b - a) / ((n : ℚ) - 1))

/-- Concatenation of the images of a list (used to express the numpy
broadcast `cols + 0*rows[:,newaxis] + 0*alts[:,newaxis,newaxis]`). -/
def cmap {α β : Type} (f : α → List β) : List α → List β
  | [] => []
  | a :: as => f a ++ cmap f as

/-- Source `generate_point_mesh`: the three broadcasts produce, in
row-major reshape order (altitude slowest, column fastest), the three
coordinate sequences of the mesh. -/
def generate_point_mesh (col_range row_range alt_range : ℚ × ℚ × ℕ) :
    List ℚ × List ℚ × List ℚ :=
  let cols := linspace col_range.1 col_range.2.1 col_range.2.2
  let rows := linspace row_range.1 row_range.2.1 row_range.2.2
  let alts := linspace alt_range.1 alt_range.2.1 alt_range.2.2
  (cmap (fun _ => cmap (fun _ => cols) rows) alts,
   cmap (fun _ => cmap (fun r => cols.map fun _ => r) rows) alts,
   cmap (fun al => cmap (fun _ => cols.map fun _ => al) rows) alts)

/-- A 3x3 rational matrix (homography / pointing-correction matrix). -/
def M3 : Type := Matrix (Fin 3) (Fin 3) ℚ

/-- External `s2p.common.points_apply_homography`, with its standard
meaning: apply `H` in homogeneous coordinates and dehomogenize.  Points
mapped to the line at infinity are outside this exact-rational model. -/
def points_apply_homography (H : M3) (p : ℚ × ℚ) : ℚ × ℚ :=
  let v := Matrix.mulVec H ![p.1, p.2, 1]
  (v 0 / v 2, v 1 / v 2)

/-- Explicit inverse of a 3x3 matrix (`np.linalg.inv` on the pointing
matrix), via the adjugate formula. -/
def inverse3 (M : M3) : M3 :=
  let d := M 0 0 * (M 1 1 * M 2 2 - M 1 2 * M 2 1)
         - M 0 1 * (M 1 0 * M 2 2 - M 1 2 * M 2 0)
         + M 0 2 * (M 1 0 * M 2 1 - M 1 1 * M 2 0)
  Matrix.of ![![ (M 1 1 * M 2 2 - M 1 2 * M 2 1) / d,
                -(M 0 1 * M 2 2 - M 0 2 * M 2 1) / d,
                 (M 0 1 * M 1 2 - M 0 2 * M 1 1) / d],
              ![-(M 1 0 * M 2 2 - M 1 2 * M 2 0) / d,
                 (M 0 0 * M 2 2 - M 0 2 * M 2 0) / d,
                -(M 0 0 * M 1 2 - M 0 2 * M 1 0) / d],
              ![ (M 1 0 * M 2 1 - M 1 1 * M 2 0) / d,
                -(M 0 0 * M 2 1 - M 0 1 * M 2 0) / d,
                 (M 0 0 * M 1 1 - M 0 1 * M 1 0) / d]]

/-- Rational-model `find_corresponding_point` (same source function as the
`Fl` version, on the exact-rational paths). -/
def find_corresponding_point_q (model_a model_b : RPCModel) (x y z : ℚ) :
    ℚ × ℚ × ℚ :=
  let t := model_a.localization x y z
  let p := model_b.projection t.1 t.2 z
  (p.1, p.2, z)

/-- Source `alt_to_disp`: reproject each (x, y, alt) into image 2,
optionally undo the pointing correction, rectify both sides and take the
horizontal difference. -/
def alt_to_disp (rpc1 rpc2 : RPCModel) (x y alt : List ℚ) (H1 H2 : M3)
    (A : Option M3) : List ℚ :=
  let p1 := x.zip y
  let p2 := (zip3 x y alt).map fun t =>
    let c := find_corresponding_point_q rpc1 rpc2 t.1 t.2.1 t.2.2
    (c.1, c.2.1)
  let p2 := match A with
    | some Am => p2.map (points_apply_homography (inverse3 Am))
    | none => p2
  let p1 := p1.map (points_apply_homography H1)
  let p2 := p2.map (points_apply_homography H2)
  List.zipWith (fun q1 q2 => q2.1 - q1.1) p1 p2

/-- Source `altitude_range_to_disp_range`: disparities of the 8 corner /
altitude-extreme combinations; `margin_top` / `margin_bottom` are accepted
and never used. -/
def altitude_range_to_disp_range (m M : ℚ) (rpc1 rpc2 : RPCModel)
    (x y w h : ℚ) (H1 H2 : M3) (A : Option M3)
    (margin_top margin_bottom : ℚ) : ℚ × ℚ :=
  let a : List ℚ := [x, x, x, x, x + w, x + w, x + w, x + w]
  let b : List ℚ := [y, y, y + h, y + h, y, y, y + h, y + h]
  let c : List ℚ := [m, M, m, M, m, M, m, M]
  let d := alt_to_disp rpc1 rpc2 a b c H1 H2 A
  (listMin d, listMax d)

/-- Mean of a list (`np.mean(axis=0)` componentwise). -/
def listMean (l : List ℚ) : ℚ := l.sum / (l.length : ℚ)

/-- External geodesy / bounding-box collaborators used by `roi_process`:
`geographiclib.compute_utm_zone`, the pyproj lonlat-to-UTM transform for a
given zone, and `s2p.common.bounding_box2D`. -/
structure GeoExt where
  compute_utm_zone : ℚ → ℚ → String
  lonlat_to_utm : String → ℚ × ℚ → ℚ × ℚ
  bounding_box2D : List (ℚ × ℚ) → ℚ × ℚ × ℚ × ℚ

/-- Source `roi_process`, with the `cfg` mutation made explicit: the
updated configuration is returned next to the image-space bounding box.
`utm_zone = none` models the falsy default (`if not utm_zone`). -/
def roi_process (geo : GeoExt) (cfg : Cfg) (rpc : RPCModel)
    (ll_poly : List (ℚ × ℚ)) (utm_zone : Option String) :
    (ℚ × ℚ × ℚ × ℚ) × Cfg :=
  let z := match utm_zone with
    | some z => z
    | none => geo.compute_utm_zone (listMean (ll_poly.map Prod.fst))
        (listMean (ll_poly.map Prod.snd))
  let cfg := { cfg with utm_zone := some z }
  let en := ll_poly.map (geo.lonlat_to_utm z)
  let easting := en.map Prod.fst
  let northing := en.map Prod.snd
  let east_min := listMin easting
  let east_max := listMax easting
  let nort_min := listMin northing
  let nort_max := listMax northing
  let cfg := { cfg with utm_bbx := some (east_min, east_max, nort_min, nort_max) }
  let img_pts := ll_poly.map fun p => rpc.projection p.1 p.2 rpc.alt_offset
  let box := geo.bounding_box2D img_pts
  (box, cfg)

/-- A real number or NaN: the value domain of the returned residuals. -/
inductive FlR where
  | nan : FlR
  | val : ℝ → FlR

/-- The residual actually returned by the source: `np.sqrt` applied to the
computed radicand (NaN propagating). -/
noncomputable def sqrtFl : Fl → FlR
  | Fl.nan => FlR.nan
  | Fl.val q => FlR.val (Real.sqrt (q : ℝ))

/-- Euclidean distance between two rational planar points, as a real. -/
noncomputable def euclDist (p q : ℚ × ℚ) : ℝ :=
  Real.sqrt (((p.1 - q.1 : ℚ) : ℝ) ^ 2 + ((p.2 - q.2 : ℚ) : ℝ) ^ 2)

/-- Source `normalize_2d_points`: recenter at the centroid and scale so
that the mean distance from the origin is sqrt 2; `T` is the matching
similarity transform. -/
noncomputable def normalize_2d_points {n : ℕ} (pts : Fin n → ℝ × ℝ) :
    (Fin n → ℝ × ℝ) × Matrix (Fin 3) (Fin 3) ℝ :=
  let cx := (∑ i, (pts i).1) / n
  let cy := (∑ i, (pts i).2) / n
  let new_x := fun i => (pts i).1 - cx
  let new_y := fun i => (pts i).2 - cy
  let mean_dist := (∑ i, Real.sqrt (new_x i ^ 2 + new_y i ^ 2)) / n
  let s := Real.sqrt 2 / mean_dist
  (fun i => (s * new_x i, s * new_y i),
   Matrix.of ![![s, 0, -s * cx], ![0, s, -s * cy], ![0, 0, 1]])

/-- Source `normalize_3d_points`: recenter at the centroid and scale so
that the mean distance from the origin is sqrt 3; `U` is the matching
similarity transform. -/
noncomputable def normalize_3d_points {n : ℕ} (pts : Fin n → ℝ × ℝ × ℝ) :
    (Fin n → ℝ × ℝ × ℝ) × Matrix (Fin 4) (Fin 4) ℝ :=
  let cx := (∑ i, (pts i).1) / n
  let cy := (∑ i, (pts i).2.1) / n
  let cz := (∑ i, (pts i).2.2) / n
  let new_x := fun i => (pts i).1 - cx
  let new_y := fun i => (pts i).2.1 - cy
  let new_z := fun i => (pts i).2.2 - cz
  let mean_dist := (∑ i, Real.sqrt (new_x i ^ 2 + new_y i ^ 2 + new_z i ^ 2)) / n
  let s := Real.sqrt 3 / mean_dist
  (fun i => (s * new_x i, s * new_y i, s * new_z i),
   Matrix.of ![![s, 0, 0, -s * cx], ![0, s, 0, -s * cy],
               ![0, 0, s, -s * cz], ![0, 0, 0, 1]])

/-- Homogeneous coordinates `[X, 1]` of a 3-space point, indexed 0..3
(indices above 3 are unreachable at the use sites). -/
def homogN (X : ℝ × ℝ × ℝ) : ℕ → ℝ :=
  fun j => if j = 0 then X.1 else if j = 1 then X.2.1 else if j = 2 then X.2.2 else 1

/-- Homogeneous coordinates of an image point. -/
def imgHomog (p : ℝ × ℝ) : Fin 3 → ℝ := ![p.1, p.2, 1]

/-- Cross product on real 3-vectors (the constraint the DLT rows encode). -/
noncomputable def cross3v (u v : Fin 3 → ℝ) : Fin 3 → ℝ :=
  ![u 1 * v 2 - u 2 * v 1, u 2 * v 0 - u 0 * v 2, u 0 * v 1 - u 1 * v 0]

/-- Homogeneous 4-vector of a 3-space point as a `Fin 4` vector. -/
def homog4fin (X : ℝ × ℝ × ℝ) : Fin 4 → ℝ := ![X.1, X.2.1, X.2.2, 1]

/-- Row-major reshape of a 12-vector into a 3x4 matrix (`reshape((3,4))`). -/
def reshape3x4 (v : Fin 12 → ℝ) : Matrix (Fin 3) (Fin 4) ℝ :=
  Matrix.of fun r c => v ⟨4 * r.1 + c.1, by have hr := r.2; have hc := c.2; omega⟩

/-- The `2N x 12` DLT system built by `camera_matrix` (source lines
784-789): row `2i` carries `-[X,1]` in columns 4..7 and `y_i [X,1]` in
columns 8..11, row `2i+1` carries `[X,1]` in columns 0..3 and
`-x_i [X,1]` in columns 8..11. -/
noncomputable def dltSystem {n : ℕ} (Xp : Fin n → ℝ × ℝ × ℝ) (xp : Fin n → ℝ × ℝ) :
    Matrix (Fin (2 * n)) (Fin 12) ℝ :=
  Matrix.of fun r c =>
    let i : Fin n := ⟨r.1 / 2, by have hr := r.2; omega⟩
    if r.1 % 2 = 0 then
      if c.1 < 4 then 0
      else if c.1 < 8 then -(homogN (Xp i) (c.1 - 4))
      else (xp i).2 * homogN (Xp i) (c.1 - 8)
    else
      if c.1 < 4 then homogN (Xp i) c.1
      else if c.1 < 8 then 0
      else -((xp i).1) * homogN (Xp i) (c.1 - 8)

/-- Explicit inverse of a real 3x3 matrix (`np.linalg.inv(T)`). -/
noncomputable def inverse3R (M : Matrix (Fin 3) (Fin 3) ℝ) : Matrix (Fin 3) (Fin 3) ℝ :=
  let d := M 0 0 * (M 1 1 * M 2 2 - M 1 2 * M 2 1)
         - M 0 1 * (M 1 0 * M 2 2 - M 1 2 * M 2 0)
         + M 0 2 * (M 1 0 * M 2 1 - M 1 1 * M 2 0)
  Matrix.of ![![ (M 1 1 * M 2 2 - M 1 2 * M 2 1) / d,
                -(M 0 1 * M 2 2 - M 0 2 * M 2 1) / d,
                 (M 0 1 * M 1 2 - M 0 2 * M 1 1) / d],
              ![-(M 1 0 * M 2 2 - M 1 2 * M 2 0) / d,
                 (M 0 0 * M 2 2 - M 0 2 * M 2 0) / d,
                -(M 0 0 * M 1 2 - M 0 2 * M 1 0) / d],
              ![ (M 1 0 * M 2 1 - M 1 1 * M 2 0) / d,
                -(M 0 0 * M 2 1 - M 0 1 * M 2 0) / d,
                 (M 0 0 * M 1 1 - M 0 1 * M 1 0) / d]]

/-- Source `camera_matrix` (DLT): normalize both point sets, build the
`2N x 12` system, take the last row of the `V^T` factor returned by the
SVD of that system (`np.linalg.svd` is the external LAPACK routine,
abstracted as `svdVT`; by its contract the last row of `V^T` is the right
singular vector of the smallest singular value), reshape it to 3x4 and
denormalize. -/
noncomputable def camera_matrix {n : ℕ}
    (svdVT : Matrix (Fin (2 * n)) (Fin 12) ℝ → Matrix (Fin 12) (Fin 12) ℝ)
    (X : Fin n → ℝ × ℝ × ℝ) (x : Fin n → ℝ × ℝ) : Matrix (Fin 3) (Fin 4) ℝ :=
  let XU := normalize_3d_points X
  let xT := normalize_2d_points x
  let A := dltSystem XU.1 xT.1
  let V := svdVT A
  let P := reshape3x4 fun j => V 11 j
  inverse3R xT.2 * P * XU.2

/-- Concrete model whose reprojection ignores altitude but still
propagates NaN through it: localize `(x, y, z) = (x + 0 z, y + 0 z)`. -/
def flatModel : CamModel :=
  ⟨fun x y z => (fadd x (fmul z (Fl.val 0)), fadd y (fmul z (Fl.val 0))),
   fun u v z => (fadd u (fmul z (Fl.val 0)), fadd v (fmul z (Fl.val 0)))⟩

/-- Concrete model whose reprojection is quadratic in the altitude:
the corresponding point of `(x, y, z)` is `(z * z, 0)`. -/
def sqModel : CamModel :=
  ⟨fun x y _ => (x, y), fun _ _ z => (fmul z z, Fl.val 0)⟩

/-- Concrete model with constant NaN output (any model works for the
empty-batch run, which never calls it). -/
def nanModel : CamModel :=
  ⟨fun _ _ _ => (Fl.nan, Fl.nan), fun _ _ _ => (Fl.nan, Fl.nan)⟩

/-- Concrete geoid collaborator. -/
def geo0 : ℚ → ℚ → ℚ := fun _ _ => 0

/-- Concrete rational camera model: constant localization/projection,
nominal altitude range `[-1, 1]`. -/
def rpc0 : RPCModel := ⟨fun _ _ _ => (0, 0), fun _ _ _ => (0, 0), 0, 1⟩

/-- Configuration with no exogenous elevation source and `k = 1`. -/
def cfgNone : Cfg := ⟨none, 1, false, none, none⟩

/-- Elevation source whose query always reports no data. -/
def demNone : Dem := ⟨fun _ _ _ _ => none⟩

/-- The identity homography. -/
def idH : M3 := Matrix.of ![![1, 0, 0], ![0, 1, 0], ![0, 0, 1]]

/-- Concrete 2D point set for evaluation: two distinct points. -/
def wpts2 : Fin 2 → ℝ × ℝ := ![(0, 0), (2, 0)]

/-- Concrete 3D point set for evaluation: two distinct points. -/
def wpts3 : Fin 2 → ℝ × ℝ × ℝ := ![(0, 0, 0), (2, 0, 0)]

/-! ### Helper lemmas -/

theorem foldl_min_le_init (xs : List ℚ) (acc : ℚ) : xs.foldl min acc ≤ acc := by
  induction xs generalizing acc with
  | nil => exact le_refl acc
  | cons x xs ih => exact le_trans (ih (min acc x)) (min_le_left acc x)

theorem foldl_min_le_mem (xs : List ℚ) (acc y : ℚ) (hy : y ∈ xs) :
    xs.foldl min acc ≤ y := by
  induction xs generalizing acc with
  | nil => cases hy
  | cons x xs ih =>
      rcases List.mem_cons.mp hy with h | h
      · subst h
        exact le_trans (foldl_min_le_init xs (min acc y)) (min_le_right acc y)
      · exact ih (min acc x) h

theorem init_le_foldl_max (xs : List ℚ) (acc : ℚ) : acc ≤ xs.foldl max acc := by
  induction xs generalizing acc with
  | nil => exact le_refl acc
  | cons x xs ih => exact le_trans (le_max_left acc x) (ih (max acc x))

theorem mem_le_foldl_max (xs : List ℚ) (acc y : ℚ) (hy : y ∈ xs) :
    y ≤ xs.foldl max acc := by
  induction xs generalizing acc with
  | nil => cases hy
  | cons x xs ih =>
      rcases List.mem_cons.mp hy with h | h
      · subst h
        exact le_trans (le_max_right acc y) (init_le_foldl_max xs (max acc y))
      · exact ih (max acc x) h

theorem listMin_le_mem (l : List ℚ) (y : ℚ) (hy : y ∈ l) : listMin l ≤ y := by
  cases l with
  | nil => cases hy
  | cons x xs =>
      rcases List.mem_cons.mp hy with h | h
      · subst h; exact foldl_min_le_init xs y
      · exact foldl_min_le_mem xs x y h

theorem mem_le_listMax (l : List ℚ) (y : ℚ) (hy : y ∈ l) : y ≤ listMax l := by
  cases l with
  | nil => cases hy
  | cons x xs =>
      rcases List.mem_cons.mp hy with h | h
      · subst h; exact init_le_foldl_max xs y
      · exact mem_le_foldl_max xs x y h

theorem listMin_le_listMax (l : List ℚ) (hne : l ≠ []) : listMin l ≤ listMax l := by
  cases l with
  | nil => exact absurd rfl hne
  | cons x xs =>
      exact le_trans (listMin_le_mem (x :: xs) x (List.mem_cons_self x xs))
        (mem_le_listMax (x :: xs) x (List.mem_cons_self x xs))

theorem listMinMax_bracket (l : List ℚ) :
    List.Forall (fun v => listMin l ≤ v ∧ v ≤ listMax l) l := by
  rw [List.forall_iff_forall_mem]
  intro v hv
  exact ⟨listMin_le_mem l v hv, mem_le_listMax l v hv⟩

/-! ### C10 -/

/-- C10: `altitude_range_to_disp_range` is independent of its
`margin_top` and `margin_bottom` parameters: two calls differing only in
the margins return equal disparity ranges. -/
theorem altitude_range_to_disp_range_margin_independent
    (m M : ℚ) (rpc1 rpc2 : RPCModel) (x y w h : ℚ) (H1 H2 : M3)
    (A : Option M3) (mt mb mt2 mb2 : ℚ) :
    altitude_range_to_disp_range m M rpc1 rpc2 x y w h H1 H2 A mt mb =
    altitude_range_to_disp_range m M rpc1 rpc2 x y w h H1 H2 A mt2 mb2 := rfl

/-! ### C1 -/

/-- C1 counterexample: with `cfg['exogenous_dem'] = None` the coarse range
is returned as is; the claimed addition of the margins to the determined
range does not happen on this path. -/
theorem altitude_range_coarse_path_margin_counterexample :
    altitude_range geo0 cfgNone rpc0 0 0 1 1 100 (-100) ≠
      ((altitude_range geo0 cfgNone rpc0 0 0 1 1 0 0).1 + (-100),
       (altitude_range geo0 cfgNone rpc0 0 0 1 1 0 0).2 + 100) := by
  simp only [altitude_range, cfgNone, altitude_range_coarse, rpc0]
  norm_num [Prod.ext_iff]

/-- C1 (amended): the margins are added to the determined range only in
the exogenous branch (`cfg['exogenous_dem']` set), including when that
branch falls back to the coarse formula because the elevation query has no
data; with no exogenous source the coarse range
`(alt_offset - k alt_scale, alt_offset + k alt_scale)` is returned with no
margins applied; and a no-data query makes `min_max_heights_from_bbx`
return exactly the coarse formula with the configured `k`. -/
theorem altitude_range_margins_amended
    (geoid : ℚ → ℚ → ℚ) (dem : Dem) (k : ℚ) (gm : Bool)
    (uz : Option String) (ub : Option (ℚ × ℚ × ℚ × ℚ)) (rpc : RPCModel)
    (x y w h mt mb lon1 lon2 lat1 lat2 : ℚ) :
    altitude_range geoid ⟨none, k, gm, uz, ub⟩ rpc x y w h mt mb =
      (rpc.alt_offset - k * rpc.alt_scale, rpc.alt_offset + k * rpc.alt_scale)
    ∧ altitude_range geoid ⟨some dem, k, gm, uz, ub⟩ rpc x y w h mt mb =
      ((min_max_heights_from_bbx geoid ⟨some dem, k, gm, uz, ub⟩ dem
          (geodesic_bounding_box rpc x y w h).1
          (geodesic_bounding_box rpc x y w h).2.1
          (geodesic_bounding_box rpc x y w h).2.2.1
          (geodesic_bounding_box rpc x y w h).2.2.2 rpc).1 + mb,
       (min_max_heights_from_bbx geoid ⟨some dem, k, gm, uz, ub⟩ dem
          (geodesic_bounding_box rpc x y w h).1
          (geodesic_bounding_box rpc x y w h).2.1
          (geodesic_bounding_box rpc x y w h).2.2.1
          (geodesic_bounding_box rpc x y w h).2.2.2 rpc).2 + mt)
    ∧ (dem.query lon1 lon2 lat1 lat2 = none →
        min_max_heights_from_bbx geoid ⟨some dem, k, gm, uz, ub⟩ dem
            lon1 lon2 lat1 lat2 rpc =
          (rpc.alt_offset - k * rpc.alt_scale,
           rpc.alt_offset + k * rpc.alt_scale)) := by
  refine ⟨rfl, rfl, fun hq => ?_⟩
  simp [min_max_heights_from_bbx, hq, altitude_range_coarse]

/-- C1 witness: the amended statement evaluated on a concrete
configuration, camera model and a no-data elevation source. -/
theorem altitude_range_margins_amended_witness :
    demNone.query 0 0 0 0 = none
    ∧ min_max_heights_from_bbx geo0 ⟨some demNone, 1, false, none, none⟩
        demNone 0 0 0 0 rpc0 =
      (rpc0.alt_offset - 1 * rpc0.alt_scale, rpc0.alt_offset + 1 * rpc0.alt_scale)
    ∧ altitude_range geo0 ⟨none, 1, false, none, none⟩ rpc0 0 0 1 1 100 (-100) =
      (rpc0.alt_offset - 1 * rpc0.alt_scale,
       rpc0.alt_offset + 1 * rpc0.alt_scale) := by
  refine ⟨rfl, ?_, ?_⟩
  · exact (altitude_range_margins_amended geo0 demNone 1 false none none rpc0
      0 0 1 1 100 (-100) 0 0 0 0).2.2 rfl
  · exact (altitude_range_margins_amended geo0 demNone 1 false none none rpc0
      0 0 1 1 100 (-100) 0 0 0 0).1

/-! ### C7 -/

/-- C7: the returned disparity range is ordered and brackets all 8
corner/altitude-extreme disparities. -/
theorem altitude_range_to_disp_range_brackets
    (m M : ℚ) (rpc1 rpc2 : RPCModel) (x y w h : ℚ) (H1 H2 : M3)
    (A : Option M3) (mt mb : ℚ) (hm : m < M) :
    (altitude_range_to_disp_range m M rpc1 rpc2 x y w h H1 H2 A mt mb).1 ≤
      (altitude_range_to_disp_range m M rpc1 rpc2 x y w h H1 H2 A mt mb).2
    ∧ List.Forall (fun v =>
        (altitude_range_to_disp_range m M rpc1 rpc2 x y w h H1 H2 A mt mb).1 ≤ v ∧
        v ≤ (altitude_range_to_disp_range m M rpc1 rpc2 x y w h H1 H2 A mt mb).2)
        (alt_to_disp rpc1 rpc2 [x, x, x, x, x + w, x + w, x + w, x + w]
          [y, y, y + h, y + h, y, y, y + h, y + h]
          [m, M, m, M, m, M, m, M] H1 H2 A) := by
  have hne : alt_to_disp rpc1 rpc2 [x, x, x, x, x + w, x + w, x + w, x + w]
      [y, y, y + h, y + h, y, y, y + h, y + h]
      [m, M, m, M, m, M, m, M] H1 H2 A ≠ [] := by
    rcases A with _ | Am <;> simp [alt_to_disp, zip3]
  exact ⟨listMin_le_listMax _ hne, listMinMax_bracket _⟩

/-- C7 witness: the bracketing statement at a concrete model, ROI,
altitude range `(0, 1)` and identity homographies. -/
theorem altitude_range_to_disp_range_brackets_witness :
    ((0 : ℚ) < 1)
    ∧ ((altitude_range_to_disp_range 0 1 rpc0 rpc0 0 0 1 1 idH idH none 0 0).1 ≤
        (altitude_range_to_disp_range 0 1 rpc0 rpc0 0 0 1 1 idH idH none 0 0).2
      ∧ List.Forall (fun v =>
          (altitude_range_to_disp_range 0 1 rpc0 rpc0 0 0 1 1 idH idH none 0 0).1 ≤ v ∧
          v ≤ (altitude_range_to_disp_range 0 1 rpc0 rpc0 0 0 1 1 idH idH none 0 0).2)
          (alt_to_disp rpc0 rpc0 [0, 0, 0, 0, 0 + 1, 0 + 1, 0 + 1, 0 + 1]
            [0, 0, 0 + 1, 0 + 1, 0, 0, 0 + 1, 0 + 1]
            [0, 1, 0, 1, 0, 1, 0, 1] idH idH none)) :=
  ⟨by norm_num,
   altitude_range_to_disp_range_brackets 0 1 rpc0 rpc0 0 0 1 1 idH idH none 0 0
     (by norm_num)⟩

/-! ### C9 -/

/-- C9: `roi_process` updates exactly the `utm_zone` and `utm_bbx`
configuration fields (the zone is the forced one or the one derived from
the polygon's mean vertex, the bbox the UTM extrema of the projected
polygon); every other configuration field is unchanged, and the image ROI
is returned, not stored. -/
theorem roi_process_cfg_effect (geo : GeoExt) (cfg : Cfg) (rpc : RPCModel)
    (ll_poly : List (ℚ × ℚ)) (uz : Option String) :
    (roi_process geo cfg rpc ll_poly uz).2.exogenous_dem = cfg.exogenous_dem
    ∧ (roi_process geo cfg rpc ll_poly uz).2.rpc_alt_range_scale_factor =
        cfg.rpc_alt_range_scale_factor
    ∧ (roi_process geo cfg rpc ll_poly uz).2.exogenous_dem_geoid_mode =
        cfg.exogenous_dem_geoid_mode
    ∧ (roi_process geo cfg rpc ll_poly uz).2.utm_zone =
        some (uz.getD (geo.compute_utm_zone (listMean (ll_poly.map Prod.fst))
          (listMean (ll_poly.map Prod.snd))))
    ∧ (roi_process geo cfg rpc ll_poly uz).2.utm_bbx =
        some (listMin ((ll_poly.map (geo.lonlat_to_utm
                (uz.getD (geo.compute_utm_zone (listMean (ll_poly.map Prod.fst))
                  (listMean (ll_poly.map Prod.snd)))))).map Prod.fst),
              listMax ((ll_poly.map (geo.lonlat_to_utm
                (uz.getD (geo.compute_utm_zone (listMean (ll_poly.map Prod.fst))
                  (listMean (ll_poly.map Prod.snd)))))).map Prod.fst),
              listMin ((ll_poly.map (geo.lonlat_to_utm
                (uz.getD (geo.compute_utm_zone (listMean (ll_poly.map Prod.fst))
                  (listMean (ll_poly.map Prod.snd)))))).map Prod.snd),
              listMax ((ll_poly.map (geo.lonlat_to_utm
                (uz.getD (geo.compute_utm_zone (listMean (ll_poly.map Prod.fst))
                  (listMean (ll_poly.map Prod.snd)))))).map Prod.snd))
    ∧ (roi_process geo cfg rpc ll_poly uz).1 =
        geo.bounding_box2D (ll_poly.map fun p => rpc.projection p.1 p.2 rpc.alt_offset) := by
  rcases uz with _ | z <;> simp [roi_process, Option.getD]

/-! ### C5 -/

theorem cmap_nil {α β : Type} (f : α → List β) : cmap f [] = [] := rfl

theorem cmap_cons {α β : Type} (f : α → List β) (a : α) (l : List α) :
    cmap f (a :: l) = f a ++ cmap f l := rfl

theorem cmap_congr_length {α β γ : Type} (f : α → List β) (g : α → List γ)
    (h : ∀ a, (f a).length = (g a).length) (l : List α) :
    (cmap f l).length = (cmap g l).length := by
  induction l with
  | nil => rfl
  | cons a l ih => simp [cmap_cons, List.length_append, h a, ih]

theorem cmap_const_length {α β : Type} (xs : List β) (l : List α) :
    (cmap (fun _ => xs) l).length = l.length * xs.length := by
  induction l with
  | nil => simp [cmap_nil]
  | cons a l ih => simp [cmap_cons, List.length_append, ih, Nat.succ_mul, Nat.add_comm]

theorem zip3_append {α β γ : Type} (l1 l1' : List α) (l2 l2' : List β)
    (l3 l3' : List γ) (h12 : l1.length = l2.length) (h13 : l1.length = l3.length) :
    zip3 (l1 ++ l1') (l2 ++ l2') (l3 ++ l3') = zip3 l1 l2 l3 ++ zip3 l1' l2' l3' := by
  induction l1 generalizing l2 l3 with
  | nil =>
      have h2 : l2 = [] := List.length_eq_zero.mp h12.symm
      have h3 : l3 = [] := List.length_eq_zero.mp h13.symm
      subst h2; subst h3; rfl
  | cons a as ih =>
      cases l2 with
      | nil => simp at h12
      | cons b bs =>
          cases l3 with
          | nil => simp at h13
          | cons c cs =>
              simp only [List.length_cons, Nat.succ.injEq] at h12 h13
              simp only [List.cons_append, zip3, List.cons.injEq, true_and]
              exact ih bs cs h12 h13

theorem zip3_map_consts {α : Type} (l : List α) (r al : α) :
    zip3 l (l.map fun _ => r) (l.map fun _ => al) = l.map fun c => (c, r, al) := by
  induction l with
  | nil => rfl
  | cons x xs ih => simp only [List.map_cons, zip3, ih]

theorem zip3_mesh_row {α : Type} (cols rows : List α) (al : α) :
    zip3 (cmap (fun _ => cols) rows)
      (cmap (fun r => cols.map fun _ => r) rows)
      (cmap (fun _ => cols.map fun _ => al) rows) =
    cmap (fun r => cols.map fun c => (c, r, al)) rows := by
  induction rows with
  | nil => rfl
  | cons r rs ih =>
      simp only [cmap_cons]
      rw [zip3_append _ _ _ _ _ _ (by simp) (by simp), zip3_map_consts, ih]

theorem zip3_mesh (cols rows alts : List ℚ) :
    zip3 (cmap (fun _ => cmap (fun _ => cols) rows) alts)
      (cmap (fun _ => cmap (fun r => cols.map fun _ => r) rows) alts)
      (cmap (fun al => cmap (fun _ => cols.map fun _ => al) rows) alts) =
    cmap (fun al => cmap (fun r => cols.map fun c => (c, r, al)) rows) alts := by
  induction alts with
  | nil => rfl
  | cons al als ih =>
      simp only [cmap_cons]
      rw [zip3_append _ _ _ _ _ _ ?_ ?_, zip3_mesh_row, ih]
      · exact cmap_congr_length _ _ (fun r => by simp) rows
      · exact cmap_congr_length _ _ (fun r => by simp) rows

theorem linspace_length (a b : ℚ) (n : ℕ) : (linspace a b n).length = n := by
  rw [linspace, List.length_map, List.length_range]

/-- C5: the mesh sequences all have length `nc * nr * na`; zipped together
they enumerate exactly the Cartesian product of the three linspaces
(altitude slowest, column fastest, every indexed combination once); a
1-sample linspace is the single value `min`; and a linspace with at least
2 samples starts at `min` and ends at `max`. -/
theorem generate_point_mesh_cartesian (cr rr ar : ℚ × ℚ × ℕ) (a b : ℚ)
    (n : ℕ) (hn : 2 ≤ n) :
    ((generate_point_mesh cr rr ar).1.length = cr.2.2 * rr.2.2 * ar.2.2
      ∧ (generate_point_mesh cr rr ar).2.1.length = cr.2.2 * rr.2.2 * ar.2.2
      ∧ (generate_point_mesh cr rr ar).2.2.length = cr.2.2 * rr.2.2 * ar.2.2)
    ∧ zip3 (generate_point_mesh cr rr ar).1 (generate_point_mesh cr rr ar).2.1
        (generate_point_mesh cr rr ar).2.2 =
      cmap (fun al => cmap (fun r => (linspace cr.1 cr.2.1 cr.2.2).map fun c => (c, r, al))
          (linspace rr.1 rr.2.1 rr.2.2)) (linspace ar.1 ar.2.1 ar.2.2)
    ∧ linspace a b 1 = [a]
    ∧ (linspace a b n).head? = some a
    ∧ (linspace a b n).getLast? = some b := by
  have hq2 : (2 : ℚ) ≤ (n : ℚ) := by exact_mod_cast hn
  have hne : ((n : ℚ) - 1) ≠ 0 := by linarith
  refine ⟨⟨?_, ?_, ?_⟩, zip3_mesh _ _ _, ?_, ?_, ?_⟩
  · rw [show (generate_point_mesh cr rr ar).1 =
        cmap (fun _ => cmap (fun _ => linspace cr.1 cr.2.1 cr.2.2)
          (linspace rr.1 rr.2.1 rr.2.2)) (linspace ar.1 ar.2.1 ar.2.2) from rfl,
      cmap_const_length, cmap_const_length, linspace_length, linspace_length,
      linspace_length]
    ring
  · rw [show (generate_point_mesh cr rr ar).2.1 =
        cmap (fun _ => cmap (fun r => (linspace cr.1 cr.2.1 cr.2.2).map fun _ => r)
          (linspace rr.1 rr.2.1 rr.2.2)) (linspace ar.1 ar.2.1 ar.2.2) from rfl]
    rw [cmap_congr_length _ (fun _ => cmap (fun _ => linspace cr.1 cr.2.1 cr.2.2)
        (linspace rr.1 rr.2.1 rr.2.2)) ?_ (linspace ar.1 ar.2.1 ar.2.2)]
    · rw [cmap_const_length, cmap_const_length, linspace_length, linspace_length,
        linspace_length]
      ring
    · intro al
      exact cmap_congr_length _ _ (fun r => by simp) (linspace rr.1 rr.2.1 rr.2.2)
  · rw [show (generate_point_mesh cr rr ar).2.2 =
        cmap (fun al => cmap (fun _ => (linspace cr.1 cr.2.1 cr.2.2).map fun _ => al)
          (linspace rr.1 rr.2.1 rr.2.2)) (linspace ar.1 ar.2.1 ar.2.2) from rfl]
    rw [cmap_congr_length _ (fun _ => cmap (fun _ => linspace cr.1 cr.2.1 cr.2.2)
        (linspace rr.1 rr.2.1 rr.2.2)) ?_ (linspace ar.1 ar.2.1 ar.2.2)]
    · rw [cmap_const_length, cmap_const_length, linspace_length, linspace_length,
        linspace_length]
      ring
    · intro al
      exact cmap_congr_length _ _ (fun r => by simp) (linspace rr.1 rr.2.1 rr.2.2)
  · rw [linspace, show List.range 1 = [0] from rfl]
    norm_num
  · rw [linspace, show n = (n - 1) + 1 by omega, List.range_succ_eq_map]
    simp
  · rw [linspace, show n = (n - 1) + 1 by omega, List.range_succ, List.map_append]
    simp only [List.map_cons, List.map_nil]
    rw [List.getLast?_concat]
    have h1 : 1 ≤ n := by omega
    have hc : (((n - 1 : ℕ) : ℚ)) = (n : ℚ) - 1 := by
      push_cast [Nat.cast_sub h1]
      ring
    rw [show ((n - 1 : ℕ) + 1 : ℕ) = n by omega, hc]
    have : a + ((n : ℚ) - 1) * ((b - a) / ((n : ℚ) - 1)) = b := by
      field_simp
    rw [this]

/-! ### Fl operation lemmas -/

@[simp] theorem fadd_nan_left (x : Fl) : fadd Fl.nan x = Fl.nan := by cases x <;> rfl

@[simp] theorem fadd_nan_right (x : Fl) : fadd x Fl.nan = Fl.nan := by cases x <;> rfl

@[simp] theorem fsub_nan_left (x : Fl) : fsub Fl.nan x = Fl.nan := by cases x <;> rfl

@[simp] theorem fsub_nan_right (x : Fl) : fsub x Fl.nan = Fl.nan := by cases x <;> rfl

@[simp] theorem fmul_nan_left (x : Fl) : fmul Fl.nan x = Fl.nan := by cases x <;> rfl

@[simp] theorem fmul_nan_right (x : Fl) : fmul x Fl.nan = Fl.nan := by cases x <;> rfl

@[simp] theorem fdiv_nan_left (x : Fl) : fdiv Fl.nan x = Fl.nan := by cases x <;> rfl

@[simp] theorem fdiv_nan_right (x : Fl) : fdiv x Fl.nan = Fl.nan := by cases x <;> rfl

theorem fdiv_zero_right (x : Fl) (q : ℚ) (hq : q = 0) :
    fdiv x (Fl.val q) = Fl.nan := by
  cases x with
  | nan => rfl
  | val a => simp [fdiv, hq]

theorem fmul_HSTEP (x : Fl) : fmul x HSTEP = x := by
  cases x with
  | nan => rfl
  | val a => simp [fmul, HSTEP]

@[simp] theorem fadd_val (a b : ℚ) : fadd (Fl.val a) (Fl.val b) = Fl.val (a + b) := rfl

@[simp] theorem fsub_val (a b : ℚ) : fsub (Fl.val a) (Fl.val b) = Fl.val (a - b) := rfl

@[simp] theorem fmul_val (a b : ℚ) : fmul (Fl.val a) (Fl.val b) = Fl.val (a * b) := rfl

@[simp] theorem fabsFl_nan : fabsFl Fl.nan = Fl.nan := rfl

@[simp] theorem fltFl_nan_left (x : Fl) : fltFl Fl.nan x = false := by cases x <;> rfl

/-! ### C2 -/

theorem chBody_length_eq (ma mb : CamModel) :
    ∀ (x1 y1 x2 y2 h0 : List Fl), y1.length = x1.length → x2.length = x1.length →
      y2.length = x1.length → h0.length = x1.length →
      (chBody ma mb x1 y1 x2 y2 h0).length = x1.length := by
  intro x1
  induction x1 with
  | nil =>
      intro y1 x2 y2 h0 hy hu hv hh
      have hy0 : y1 = [] := List.length_eq_zero.mp hy
      have hu0 : x2 = [] := List.length_eq_zero.mp hu
      have hv0 : y2 = [] := List.length_eq_zero.mp hv
      have hh0 : h0 = [] := List.length_eq_zero.mp hh
      subst hy0; subst hu0; subst hv0; subst hh0; rfl
  | cons x xs ih =>
      intro y1 x2 y2 h0 hy hu hv hh
      cases y1 with
      | nil => simp at hy
      | cons y ys =>
          cases x2 with
          | nil => simp at hu
          | cons u us =>
              cases y2 with
              | nil => simp at hv
              | cons v vs =>
                  cases h0 with
                  | nil => simp at hh
                  | cons hd hs =>
                      simp only [List.length_cons, Nat.succ.injEq] at hy hu hv hh
                      simp only [chBody, List.length_cons, Nat.succ.injEq]
                      exact ih ys us vs hs hy hu hv hh

theorem chRun_spec (ma mb : CamModel) (x1 y1 x2 y2 : List Fl)
    (hy : y1.length = x1.length) (hu : x2.length = x1.length)
    (hv : y2.length = x1.length) (hx : x1 ≠ []) :
    ∀ (fuel : ℕ) (h0 e0 i0 : List Fl) (c : ℕ), h0.length = x1.length →
      ∃ h e inc c2, chRun ma mb x1 y1 x2 y2 fuel h0 e0 i0 c = some (h, e, inc, c2)
        ∧ c2 ≤ c + fuel
        ∧ (c2 < c + fuel →
            ∃ mx, npMax (inc.map fabsFl) = some mx
              ∧ fltFl mx (Fl.val (1 / 1000)) = true) := by
  intro fuel
  induction fuel with
  | zero =>
      intro h0 e0 i0 c hh
      exact ⟨h0, e0, i0, c, rfl, Nat.le_refl _, fun hlt => absurd hlt (by omega)⟩
  | succ fuel ih =>
      intro h0 e0 i0 c hh
      have hlen : (chBody ma mb x1 y1 x2 y2 h0).length = x1.length :=
        chBody_length_eq ma mb x1 y1 x2 y2 h0 hy hu hv hh
      have hpos : 0 < x1.length := List.length_pos.mpr hx
      have hlpos : 0 < (((chBody ma mb x1 y1 x2 y2 h0).map CHStep.h0_inc).map fabsFl).length := by
        simpa [hlen] using hpos
      obtain ⟨z, zs, hzs⟩ : ∃ z zs,
          ((chBody ma mb x1 y1 x2 y2 h0).map CHStep.h0_inc).map fabsFl = z :: zs := by
        cases hcase : ((chBody ma mb x1 y1 x2 y2 h0).map CHStep.h0_inc).map fabsFl with
        | nil => rw [hcase] at hlpos; simp at hlpos
        | cons z zs => exact ⟨z, zs, rfl⟩
      have hnp : npMax (((chBody ma mb x1 y1 x2 y2 h0).map CHStep.h0_inc).map fabsFl) =
          some (zs.foldl fmaxFl z) := by rw [hzs]; rfl
      by_cases hbr : fltFl (zs.foldl fmaxFl z) (Fl.val (1 / 1000)) = true
      · refine ⟨(chBody ma mb x1 y1 x2 y2 h0).map CHStep.h1,
          (chBody ma mb x1 y1 x2 y2 h0).map CHStep.errSq,
          (chBody ma mb x1 y1 x2 y2 h0).map CHStep.h0_inc, c + 1, ?_, by omega,
          fun _ => ⟨zs.foldl fmaxFl z, hnp, hbr⟩⟩
        simp only [chRun, hnp, hbr, if_true]
      · have hh1 : ((chBody ma mb x1 y1 x2 y2 h0).map CHStep.h1).length = x1.length := by
          simp [hlen]
        obtain ⟨h, e, inc, c2, hrec, hle, hexit⟩ :=
          ih ((chBody ma mb x1 y1 x2 y2 h0).map CHStep.h1)
            ((chBody ma mb x1 y1 x2 y2 h0).map CHStep.errSq)
            ((chBody ma mb x1 y1 x2 y2 h0).map CHStep.h0_inc) (c + 1) hh1
        refine ⟨h, e, inc, c2, ?_, by omega, fun hlt => hexit (by omega)⟩
        simp only [chRun, hnp]
        rw [if_neg (by simpa using hbr)]
        exact hrec

/-- C2 counterexample: on the empty batch the first `np.max` reduction is
over an empty array and raises, so `compute_height` produces no value. -/
theorem compute_height_empty_batch_raises :
    compute_height nanModel nanModel [] [] [] [] = none := rfl

/-- C2 (amended): for every nonempty equal-length batch the loop executes
at most 100 iterations, exits before the 100th only when the last computed
increments satisfy `np.max(np.fabs(h0_inc)) < 0.001` (the sole early-exit
condition), and always returns the heights/residuals reached at cutoff; on
the empty batch `np.max` raises. -/
theorem compute_height_iteration_bound (ma mb : CamModel) (x1 y1 x2 y2 : List Fl)
    (hy : y1.length = x1.length) (hu : x2.length = x1.length)
    (hv : y2.length = x1.length) (hx : x1 ≠ []) :
    ∃ h e inc c, compute_height ma mb x1 y1 x2 y2 = some (h, e, inc, c)
      ∧ c ≤ 100
      ∧ (c < 100 →
          ∃ mx, npMax (inc.map fabsFl) = some mx
            ∧ fltFl mx (Fl.val (1 / 1000)) = true) := by
  have hmain := chRun_spec ma mb x1 y1 x2 y2 hy hu hv hx 100
    (chInit x1) (chInit x1) (chInit x1) 0 (by simp [chInit])
  simpa [compute_height] using hmain

/-- C2 witness: the amended statement on a concrete singleton batch. -/
theorem compute_height_iteration_bound_witness :
    (([Fl.val 0] : List Fl).length = ([Fl.val 0] : List Fl).length
      ∧ ([Fl.val 0] : List Fl) ≠ [])
    ∧ (∃ h e inc c,
        compute_height nanModel nanModel [Fl.val 0] [Fl.val 0] [Fl.val 0] [Fl.val 0] =
          some (h, e, inc, c)
        ∧ c ≤ 100
        ∧ (c < 100 →
            ∃ mx, npMax (inc.map fabsFl) = some mx
              ∧ fltFl mx (Fl.val (1 / 1000)) = true)) :=
  ⟨⟨rfl, by simp⟩,
   compute_height_iteration_bound nanModel nanModel
     [Fl.val 0] [Fl.val 0] [Fl.val 0] [Fl.val 0] rfl rfl rfl (by simp)⟩

/-- C5 witness: the mesh statement on concrete ranges `(0,1,2)`,
`(0,1,1)`, `(0,1,1)` and the endpoint statement at `n = 2`. -/
theorem generate_point_mesh_cartesian_witness :
    2 ≤ 2
    ∧ (((generate_point_mesh (0, 1, 2) (0, 1, 1) (0, 1, 1)).1.length = 2 * 1 * 1
        ∧ (generate_point_mesh (0, 1, 2) (0, 1, 1) (0, 1, 1)).2.1.length = 2 * 1 * 1
        ∧ (generate_point_mesh (0, 1, 2) (0, 1, 1) (0, 1, 1)).2.2.length = 2 * 1 * 1)
      ∧ zip3 (generate_point_mesh (0, 1, 2) (0, 1, 1) (0, 1, 1)).1
          (generate_point_mesh (0, 1, 2) (0, 1, 1) (0, 1, 1)).2.1
          (generate_point_mesh (0, 1, 2) (0, 1, 1) (0, 1, 1)).2.2 =
        cmap (fun al => cmap (fun r => (linspace 0 1 2).map fun c => (c, r, al))
            (linspace 0 1 1)) (linspace 0 1 1)
      ∧ linspace 0 1 1 = [0]
      ∧ (linspace 0 1 2).head? = some 0
      ∧ (linspace 0 1 2).getLast? = some 1) :=
  ⟨by norm_num,
   generate_point_mesh_cartesian (0, 1, 2) (0, 1, 1) (0, 1, 1) 0 1 2 (by norm_num)⟩

/-! ### C6 -/

theorem chRun_heights (ma mb : CamModel) (x1 y1 x2 y2 : List Fl) :
    ∀ (fuel : ℕ) (h0 e0 i0 : List Fl) (c : ℕ) (h e inc : List Fl) (c2 : ℕ),
      chRun ma mb x1 y1 x2 y2 fuel h0 e0 i0 c = some (h, e, inc, c2) →
      ∃ d, d ≤ fuel ∧ c2 = c + d ∧ h = (hStep ma mb x1 y1 x2 y2)^[d] h0 := by
  intro fuel
  induction fuel with
  | zero =>
      intro h0 e0 i0 c h e inc c2 hr
      simp only [chRun, Option.some.injEq, Prod.mk.injEq] at hr
      exact ⟨0, Nat.le_refl 0, hr.2.2.2.symm, hr.1.symm⟩
  | succ fuel ih =>
      intro h0 e0 i0 c h e inc c2 hr
      simp only [chRun] at hr
      cases hnp : npMax (((chBody ma mb x1 y1 x2 y2 h0).map CHStep.h0_inc).map fabsFl) with
      | none => rw [hnp] at hr; exact absurd hr (by simp)
      | some mx =>
          rw [hnp] at hr
          dsimp only at hr
          by_cases hbr : fltFl mx (Fl.val (1 / 1000)) = true
          · rw [if_pos hbr] at hr
            simp only [Option.some.injEq, Prod.mk.injEq] at hr
            refine ⟨1, by omega, by omega, ?_⟩
            rw [← hr.1, Function.iterate_one]
            rfl
          · rw [if_neg hbr] at hr
            obtain ⟨d, hd, hc2, hh⟩ := ih _ _ _ _ _ _ _ _ hr
            refine ⟨d + 1, by omega, by omega, ?_⟩
            rw [hh, Function.iterate_succ_apply]
            rfl

theorem chIterH_eq_iterate (ma mb : CamModel) (x1 y1 x2 y2 : List Fl) (k : ℕ) :
    chIterH ma mb x1 y1 x2 y2 k = (hStep ma mb x1 y1 x2 y2)^[k] (chInit x1) := by
  induction k with
  | zero => rfl
  | succ k ih => rw [chIterH, ih, Function.iterate_succ_apply']

theorem chBody_index (ma mb : CamModel) :
    ∀ (x1 y1 x2 y2 h0 : List Fl) (i : ℕ) (xi yi ui vi hi : Fl),
      x1[i]? = some xi → y1[i]? = some yi → x2[i]? = some ui →
      y2[i]? = some vi → h0[i]? = some hi →
      (chBody ma mb x1 y1 x2 y2 h0)[i]? = some (chPoint ma mb xi yi ui vi hi) := by
  intro x1
  induction x1 with
  | nil =>
      intro y1 x2 y2 h0 i xi yi ui vi hi hx hy hu hv hh
      simp at hx
  | cons x xs ih =>
      intro y1 x2 y2 h0 i xi yi ui vi hi hx hy hu hv hh
      cases y1 with
      | nil => simp at hy
      | cons y ys =>
          cases x2 with
          | nil => simp at hu
          | cons u us =>
              cases y2 with
              | nil => simp at hv
              | cons v vs =>
                  cases h0 with
                  | nil => simp at hh
                  | cons hd hs =>
                      cases i with
                      | zero =>
                          simp only [List.getElem?_cons_zero, Option.some.injEq]
                            at hx hy hu hv hh
                          subst hx; subst hy; subst hu; subst hv; subst hh
                          simp [chBody]
                      | succ i =>
                          simp only [List.getElem?_cons_succ] at hx hy hu hv hh
                          simpa [chBody] using
                            ih ys us vs hs i xi yi ui vi hi hx hy hu hv hh

theorem hStep_index (ma mb : CamModel) (x1 y1 x2 y2 h0 : List Fl) (i : ℕ)
    (xi yi ui vi hi : Fl) (hx : x1[i]? = some xi) (hy : y1[i]? = some yi)
    (hu : x2[i]? = some ui) (hv : y2[i]? = some vi) (hh : h0[i]? = some hi) :
    (hStep ma mb x1 y1 x2 y2 h0)[i]? =
      some ((chPoint ma mb xi yi ui vi hi).h1) := by
  rw [hStep, List.getElem?_map,
    chBody_index ma mb x1 y1 x2 y2 h0 i xi yi ui vi hi hx hy hu hv hh]
  rfl

theorem chPoint_a_eq (ma mb : CamModel) (x y u v h : Fl) :
    (chPoint ma mb x y u v h).a = probeDisp ma mb x y h := rfl

theorem chPoint_inc_nan (ma mb : CamModel) (x y u v h : Fl)
    (hz : probeDisp ma mb x y h = (Fl.val 0, Fl.val 0)) :
    (chPoint ma mb x y u v h).h0_inc = Fl.nan
    ∧ (chPoint ma mb x y u v h).h1 = Fl.nan := by
  have h1 : fsub (fcp2 ma mb x y (fadd h HSTEP)).1 (fcp2 ma mb x y h).1 = Fl.val 0 := by
    have := congrArg Prod.fst hz; simpa [probeDisp] using this
  have h2 : fsub (fcp2 ma mb x y (fadd h HSTEP)).2 (fcp2 ma mb x y h).2 = Fl.val 0 := by
    have := congrArg Prod.snd hz; simpa [probeDisp] using this
  have hinc : (chPoint ma mb x y u v h).h0_inc = Fl.nan := by
    show fdiv
        (fadd (fmul (fsub (fcp2 ma mb x y (fadd h HSTEP)).1 (fcp2 ma mb x y h).1)
                 (fsub u (fcp2 ma mb x y h).1))
              (fmul (fsub (fcp2 ma mb x y (fadd h HSTEP)).2 (fcp2 ma mb x y h).2)
                 (fsub v (fcp2 ma mb x y h).2)))
        (fadd (fmul (fsub (fcp2 ma mb x y (fadd h HSTEP)).1 (fcp2 ma mb x y h).1)
                 (fsub (fcp2 ma mb x y (fadd h HSTEP)).1 (fcp2 ma mb x y h).1))
              (fmul (fsub (fcp2 ma mb x y (fadd h HSTEP)).2 (fcp2 ma mb x y h).2)
                 (fsub (fcp2 ma mb x y (fadd h HSTEP)).2 (fcp2 ma mb x y h).2))) =
      Fl.nan
    rw [h1, h2]
    show fdiv _ (Fl.val (0 * 0 + 0 * 0)) = Fl.nan
    exact fdiv_zero_right _ _ (by norm_num)
  refine ⟨hinc, ?_⟩
  have hh1 : (chPoint ma mb x y u v h).h1 =
      fadd h (fmul (chPoint ma mb x y u v h).h0_inc HSTEP) := rfl
  rw [hh1, hinc]
  simp [HSTEP]

theorem chPoint_h1_nan (ma mb : CamModel) (x y u v : Fl) :
    (chPoint ma mb x y u v Fl.nan).h1 = Fl.nan := by
  have hh1 : (chPoint ma mb x y u v Fl.nan).h1 =
      fadd Fl.nan (fmul (chPoint ma mb x y u v Fl.nan).h0_inc HSTEP) := rfl
  rw [hh1, fadd_nan_left]

/-- C6: at any executed iteration `k`, a point whose probe displacement
`a = r1 - r0` is the zero vector gets `h_inc = NaN` (the `0/0` quotient,
whatever `b` is), and that NaN propagates into the returned height of that
point (`h` is updated by `h + h_inc` and NaN absorbs all later updates). -/
theorem compute_height_nan_propagation (ma mb : CamModel)
    (x1 y1 x2 y2 h e inc : List Fl) (c k i : ℕ) (xi yi ui vi hki : Fl)
    (hxi : x1[i]? = some xi) (hyi : y1[i]? = some yi)
    (hui : x2[i]? = some ui) (hvi : y2[i]? = some vi)
    (hhk : (chIterH ma mb x1 y1 x2 y2 k)[i]? = some hki)
    (hzero : probeDisp ma mb xi yi hki = (Fl.val 0, Fl.val 0))
    (hrun : compute_height ma mb x1 y1 x2 y2 = some (h, e, inc, c))
    (hk : k < c) :
    ((chBody ma mb x1 y1 x2 y2 (chIterH ma mb x1 y1 x2 y2 k)).map
        CHStep.h0_inc)[i]? = some Fl.nan
    ∧ h[i]? = some Fl.nan := by
  have hincnan := (chPoint_inc_nan ma mb xi yi ui vi hki hzero).1
  have hh1nan := (chPoint_inc_nan ma mb xi yi ui vi hki hzero).2
  constructor
  · rw [List.getElem?_map,
      chBody_index ma mb x1 y1 x2 y2 _ i xi yi ui vi hki hxi hyi hui hvi hhk]
    simp [hincnan]
  · have hk1 : (chIterH ma mb x1 y1 x2 y2 (k + 1))[i]? = some Fl.nan := by
      rw [chIterH,
        hStep_index ma mb x1 y1 x2 y2 _ i xi yi ui vi hki hxi hyi hui hvi hhk,
        hh1nan]
    have hall : ∀ d, (chIterH ma mb x1 y1 x2 y2 (k + 1 + d))[i]? = some Fl.nan := by
      intro d
      induction d with
      | zero => exact hk1
      | succ d ihd =>
          show (chIterH ma mb x1 y1 x2 y2 ((k + 1 + d) + 1))[i]? = some Fl.nan
          rw [chIterH,
            hStep_index ma mb x1 y1 x2 y2 _ i xi yi ui vi Fl.nan hxi hyi hui hvi ihd,
            chPoint_h1_nan]
    obtain ⟨d, hdle, hc2, hhiter⟩ := chRun_heights ma mb x1 y1 x2 y2 100
      (chInit x1) (chInit x1) (chInit x1) 0 h e inc c hrun
    have hheq : h = chIterH ma mb x1 y1 x2 y2 c := by
      rw [hhiter, chIterH_eq_iterate]
      congr 1
      omega
    rw [hheq, show c = k + 1 + (c - (k + 1)) from by omega]
    exact hall (c - (k + 1))

theorem chPoint_q_eq (ma mb : CamModel) (x y u v h : Fl) :
    (chPoint ma mb x y u v h).q =
      (fadd (fcp2 ma mb x y h).1
         (fmul (chPoint ma mb x y u v h).h0_inc (probeDisp ma mb x y h).1),
       fadd (fcp2 ma mb x y h).2
         (fmul (chPoint ma mb x y u v h).h0_inc (probeDisp ma mb x y h).2)) := rfl

theorem chPoint_errSq_eq (ma mb : CamModel) (x y u v h : Fl) :
    (chPoint ma mb x y u v h).errSq =
      fadd (fmul (fsub (chPoint ma mb x y u v h).q.1 u)
              (fsub (chPoint ma mb x y u v h).q.1 u))
           (fmul (fsub (chPoint ma mb x y u v h).q.2 v)
              (fsub (chPoint ma mb x y u v h).q.2 v)) := rfl

theorem chPoint_errSq_nan (ma mb : CamModel) (x y u v h : Fl)
    (hinc : (chPoint ma mb x y u v h).h0_inc = Fl.nan) :
    (chPoint ma mb x y u v h).errSq = Fl.nan := by
  rw [chPoint_errSq_eq, chPoint_q_eq, hinc]
  simp

theorem chRun_flat_nan (fuel c : ℕ) :
    chRun flatModel flatModel [Fl.val 0] [Fl.val 0] [Fl.val 0] [Fl.val 0] fuel
      [Fl.nan] [Fl.nan] [Fl.nan] c =
    some ([Fl.nan], [Fl.nan], [Fl.nan], c + fuel) := by
  induction fuel generalizing c with
  | zero => rfl
  | succ fuel ihf =>
      have hstep : chRun flatModel flatModel [Fl.val 0] [Fl.val 0] [Fl.val 0]
          [Fl.val 0] (fuel + 1) [Fl.nan] [Fl.nan] [Fl.nan] c =
        chRun flatModel flatModel [Fl.val 0] [Fl.val 0] [Fl.val 0] [Fl.val 0]
          fuel [Fl.nan] [Fl.nan] [Fl.nan] (c + 1) := rfl
      rw [hstep, show c + (fuel + 1) = (c + 1) + fuel from by omega]
      exact ihf (c + 1)

theorem flat_probe_zero :
    probeDisp flatModel flatModel (Fl.val 0) (Fl.val 0) (Fl.val 0) =
      (Fl.val 0, Fl.val 0) := by
  simp [probeDisp, fcp2, find_corresponding_point, flatModel, HSTEP]

set_option maxRecDepth 8000 in
theorem flat_run_eval :
    compute_height flatModel flatModel [Fl.val 0] [Fl.val 0] [Fl.val 0] [Fl.val 0] =
      some ([Fl.nan], [Fl.nan], [Fl.nan], 100) := by
  have hinc0 := (chPoint_inc_nan flatModel flatModel (Fl.val 0) (Fl.val 0)
    (Fl.val 0) (Fl.val 0) (Fl.val 0) flat_probe_zero).1
  have hh10 := (chPoint_inc_nan flatModel flatModel (Fl.val 0) (Fl.val 0)
    (Fl.val 0) (Fl.val 0) (Fl.val 0) flat_probe_zero).2
  have herr0 := chPoint_errSq_nan flatModel flatModel (Fl.val 0) (Fl.val 0)
    (Fl.val 0) (Fl.val 0) (Fl.val 0) hinc0
  have hbody : chBody flatModel flatModel [Fl.val 0] [Fl.val 0] [Fl.val 0]
      [Fl.val 0] (chInit [Fl.val 0]) =
    [chPoint flatModel flatModel (Fl.val 0) (Fl.val 0) (Fl.val 0) (Fl.val 0)
      (Fl.val 0)] := rfl
  have h1run : compute_height flatModel flatModel [Fl.val 0] [Fl.val 0]
      [Fl.val 0] [Fl.val 0] =
    chRun flatModel flatModel [Fl.val 0] [Fl.val 0] [Fl.val 0] [Fl.val 0] 99
      [Fl.nan] [Fl.nan] [Fl.nan] 1 := by
    rw [compute_height, show (100 : ℕ) = 99 + 1 from rfl]
    simp only [chRun, hbody, List.map_cons, List.map_nil, hinc0, hh10, herr0,
      fabsFl_nan, npMax, List.foldl_nil, fltFl_nan_left, Bool.false_eq_true,
      if_false, Nat.zero_add]
  rw [h1run, chRun_flat_nan, show 1 + 99 = 100 from rfl]

/-- C6 witness: the NaN-propagation statement on a concrete
altitude-insensitive model, where the first iteration has zero probe
displacement and the run returns NaN height after the full 100
iterations. -/
theorem compute_height_nan_propagation_witness :
    probeDisp flatModel flatModel (Fl.val 0) (Fl.val 0) (Fl.val 0) =
      (Fl.val 0, Fl.val 0)
    ∧ compute_height flatModel flatModel [Fl.val 0] [Fl.val 0] [Fl.val 0]
        [Fl.val 0] = some ([Fl.nan], [Fl.nan], [Fl.nan], 100)
    ∧ (0 : ℕ) < 100
    ∧ ((chBody flatModel flatModel [Fl.val 0] [Fl.val 0] [Fl.val 0] [Fl.val 0]
          (chIterH flatModel flatModel [Fl.val 0] [Fl.val 0] [Fl.val 0]
            [Fl.val 0] 0)).map CHStep.h0_inc)[0]? = some Fl.nan
    ∧ ([Fl.nan] : List Fl)[0]? = some Fl.nan := by
  have hmain := compute_height_nan_propagation flatModel flatModel
    [Fl.val 0] [Fl.val 0] [Fl.val 0] [Fl.val 0] [Fl.nan] [Fl.nan] [Fl.nan]
    100 0 0 (Fl.val 0) (Fl.val 0) (Fl.val 0) (Fl.val 0) (Fl.val 0)
    rfl rfl rfl rfl rfl flat_probe_zero flat_run_eval (by norm_num)
  exact ⟨flat_probe_zero, flat_run_eval, by norm_num, hmain.1, hmain.2⟩

/-! ### C3 -/

/-- C3 (amended): after the update `h_{k+1} = h_k + h_inc` (step size 1
per unit of `h_inc`), the residual computed for a point is the Euclidean
distance between the linearized prediction `q = r0 + h_inc * a` and the
observed point `p2` — not between the model reprojection of
`(x1, y1, h_{k+1})` and `p2`. -/
theorem compute_height_residual_amended (ma mb : CamModel) (x y u v h0 : Fl)
    (qx qy px py : ℚ)
    (hq : (chPoint ma mb x y u v h0).q = (Fl.val qx, Fl.val qy))
    (hu : u = Fl.val px) (hv : v = Fl.val py) :
    (chPoint ma mb x y u v h0).h1 = fadd h0 (chPoint ma mb x y u v h0).h0_inc
    ∧ sqrtFl (chPoint ma mb x y u v h0).errSq =
        FlR.val (euclDist (qx, qy) (px, py)) := by
  constructor
  · have hh1 : (chPoint ma mb x y u v h0).h1 =
        fadd h0 (fmul (chPoint ma mb x y u v h0).h0_inc HSTEP) := rfl
    rw [hh1, fmul_HSTEP]
  · rw [chPoint_errSq_eq, hq, hu, hv]
    simp only [fsub_val, fmul_val, fadd_val, sqrtFl, euclDist]
    congr 1
    push_cast
    ring_nf

theorem sq_point_errSq :
    (chPoint sqModel sqModel (Fl.val 0) (Fl.val 0) (Fl.val 6) (Fl.val 0)
      (Fl.val 0)).errSq = Fl.val 0 := by
  norm_num [chPoint, fcp2, find_corresponding_point, sqModel, HSTEP, fdiv]

theorem sq_point_q :
    (chPoint sqModel sqModel (Fl.val 0) (Fl.val 0) (Fl.val 6) (Fl.val 0)
      (Fl.val 0)).q = (Fl.val 6, Fl.val 0) := by
  norm_num [chPoint, fcp2, find_corresponding_point, sqModel, HSTEP, fdiv,
    Prod.ext_iff]

theorem sq_point_h1 :
    (chPoint sqModel sqModel (Fl.val 0) (Fl.val 0) (Fl.val 6) (Fl.val 0)
      (Fl.val 0)).h1 = Fl.val 6 := by
  norm_num [chPoint, fcp2, find_corresponding_point, sqModel, HSTEP, fdiv]

/-- C3 counterexample: with a model quadratic in altitude, the first
iteration at `p2 = (6, 0)` updates the height to 6 and reports residual
`sqrt 0 = 0`, while the model reprojection of the updated height lands at
`(36, 0)`, whose Euclidean distance to `p2` is 30. -/
theorem compute_height_residual_counterexample :
    fcp2 sqModel sqModel (Fl.val 0) (Fl.val 0)
        ((chPoint sqModel sqModel (Fl.val 0) (Fl.val 0) (Fl.val 6) (Fl.val 0)
          (Fl.val 0)).h1) = (Fl.val 36, Fl.val 0)
    ∧ sqrtFl (chPoint sqModel sqModel (Fl.val 0) (Fl.val 0) (Fl.val 6)
        (Fl.val 0) (Fl.val 0)).errSq ≠ FlR.val (euclDist (36, 0) (6, 0)) := by
  constructor
  · rw [sq_point_h1]
    norm_num [fcp2, find_corresponding_point, sqModel, Prod.ext_iff]
  · rw [sq_point_errSq]
    intro hco
    have h30 : euclDist (36, 0) (6, 0) = 30 := by
      rw [euclDist]
      norm_num
      rw [show (900 : ℝ) = 30 ^ 2 by norm_num]
      exact Real.sqrt_sq (by norm_num)
    rw [sqrtFl, h30] at hco
    injection hco with hco2
    rw [show ((0 : ℚ) : ℝ) = (0 : ℝ) by norm_num, Real.sqrt_zero] at hco2
    norm_num at hco2

/-- C3 witness: the amended residual statement at the concrete quadratic
model and point. -/
theorem compute_height_residual_amended_witness :
    (chPoint sqModel sqModel (Fl.val 0) (Fl.val 0) (Fl.val 6) (Fl.val 0)
      (Fl.val 0)).q = (Fl.val 6, Fl.val 0)
    ∧ ((chPoint sqModel sqModel (Fl.val 0) (Fl.val 0) (Fl.val 6) (Fl.val 0)
          (Fl.val 0)).h1 =
        fadd (Fl.val 0) (chPoint sqModel sqModel (Fl.val 0) (Fl.val 0)
          (Fl.val 6) (Fl.val 0) (Fl.val 0)).h0_inc
      ∧ sqrtFl (chPoint sqModel sqModel (Fl.val 0) (Fl.val 0) (Fl.val 6)
          (Fl.val 0) (Fl.val 0)).errSq = FlR.val (euclDist (6, 0) (6, 0))) :=
  ⟨sq_point_q,
   compute_height_residual_amended sqModel sqModel (Fl.val 0) (Fl.val 0)
     (Fl.val 6) (Fl.val 0) (Fl.val 0) 6 0 6 0 sq_point_q rfl rfl⟩

/-! ### C8 -/

theorem sum_sub_mean {n : ℕ} (hn : (n : ℝ) ≠ 0) (f : Fin n → ℝ) :
    ∑ i, (f i - (∑ j, f j) / n) = 0 := by
  rw [Finset.sum_sub_distrib, Finset.sum_const, Finset.card_univ, Fintype.card_fin,
    nsmul_eq_mul, mul_comm, div_mul_cancel₀ _ hn, sub_self]

theorem sqrt_scaled (s a b : ℝ) (hs : 0 ≤ s) :
    Real.sqrt ((s * a) ^ 2 + (s * b) ^ 2) = s * Real.sqrt (a ^ 2 + b ^ 2) := by
  rw [show (s * a) ^ 2 + (s * b) ^ 2 = s ^ 2 * (a ^ 2 + b ^ 2) from by ring,
    Real.sqrt_mul (sq_nonneg s), Real.sqrt_sq hs]

theorem sqrt_scaled3 (s a b c : ℝ) (hs : 0 ≤ s) :
    Real.sqrt ((s * a) ^ 2 + (s * b) ^ 2 + (s * c) ^ 2) =
      s * Real.sqrt (a ^ 2 + b ^ 2 + c ^ 2) := by
  rw [show (s * a) ^ 2 + (s * b) ^ 2 + (s * c) ^ 2 =
      s ^ 2 * (a ^ 2 + b ^ 2 + c ^ 2) from by ring,
    Real.sqrt_mul (sq_nonneg s), Real.sqrt_sq hs]

/-- C8: for a point set with two distinct points, the normalized points
have centroid at the origin and mean distance sqrt 2 (2D) resp. sqrt 3
(3D) from it, and the returned similarity transform maps each input point
to its output point in homogeneous coordinates. -/
theorem normalize_points_similarity {n m : ℕ}
    (pts2 : Fin n → ℝ × ℝ) (pts3 : Fin m → ℝ × ℝ × ℝ) (i2 : Fin n) (i3 : Fin m)
    (h2 : ∃ i j, pts2 i ≠ pts2 j) (h3 : ∃ i j, pts3 i ≠ pts3 j) :
    ((∑ i, ((normalize_2d_points pts2).1 i).1) / n = 0
      ∧ (∑ i, ((normalize_2d_points pts2).1 i).2) / n = 0
      ∧ (∑ i, Real.sqrt (((normalize_2d_points pts2).1 i).1 ^ 2 +
          ((normalize_2d_points pts2).1 i).2 ^ 2)) / n = Real.sqrt 2
      ∧ (normalize_2d_points pts2).2.mulVec ![(pts2 i2).1, (pts2 i2).2, 1] =
          ![((normalize_2d_points pts2).1 i2).1,
            ((normalize_2d_points pts2).1 i2).2, 1])
    ∧ ((∑ i, ((normalize_3d_points pts3).1 i).1) / m = 0
      ∧ (∑ i, ((normalize_3d_points pts3).1 i).2.1) / m = 0
      ∧ (∑ i, ((normalize_3d_points pts3).1 i).2.2) / m = 0
      ∧ (∑ i, Real.sqrt (((normalize_3d_points pts3).1 i).1 ^ 2 +
          ((normalize_3d_points pts3).1 i).2.1 ^ 2 +
            ((normalize_3d_points pts3).1 i).2.2 ^ 2)) / m = Real.sqrt 3
      ∧ (normalize_3d_points pts3).2.mulVec
          ![(pts3 i3).1, (pts3 i3).2.1, (pts3 i3).2.2, 1] =
          ![((normalize_3d_points pts3).1 i3).1,
            ((normalize_3d_points pts3).1 i3).2.1,
            ((normalize_3d_points pts3).1 i3).2.2, 1]) := by
  constructor
  · -- 2D part
    obtain ⟨iw, jw, hij⟩ := h2
    have hnR : (n : ℝ) ≠ 0 := by
      have := iw.pos
      positivity
    have hoff : ∃ i0, pts2 i0 ≠
        ((∑ i, (pts2 i).1) / n, (∑ i, (pts2 i).2) / n) := by
      by_contra hall
      push_neg at hall
      exact hij ((hall iw).trans (hall jw).symm)
    obtain ⟨i0, hi0⟩ := hoff
    have hd0 : 0 < ((pts2 i0).1 - (∑ i, (pts2 i).1) / n) ^ 2 +
        ((pts2 i0).2 - (∑ i, (pts2 i).2) / n) ^ 2 := by
      have hne : (pts2 i0).1 - (∑ i, (pts2 i).1) / n ≠ 0 ∨
          (pts2 i0).2 - (∑ i, (pts2 i).2) / n ≠ 0 := by
        by_contra hcon
        push_neg at hcon
        apply hi0
        have e1 : (pts2 i0).1 = (∑ i, (pts2 i).1) / n := by
          have := hcon.1; linarith
        have e2 : (pts2 i0).2 = (∑ i, (pts2 i).2) / n := by
          have := hcon.2; linarith
        exact Prod.ext e1 e2
      rcases hne with hne | hne
      · nlinarith [pow_two_pos_of_ne_zero hne,
          sq_nonneg ((pts2 i0).2 - (∑ i, (pts2 i).2) / n)]
      · nlinarith [pow_two_pos_of_ne_zero hne,
          sq_nonneg ((pts2 i0).1 - (∑ i, (pts2 i).1) / n)]
    have hmd : 0 < (∑ i, Real.sqrt (((pts2 i).1 - (∑ j, (pts2 j).1) / n) ^ 2 +
        ((pts2 i).2 - (∑ j, (pts2 j).2) / n) ^ 2)) / n := by
      apply div_pos ?_ (by
        have := iw.pos
        positivity)
      refine Finset.sum_pos' (fun i _ => Real.sqrt_nonneg _)
        ⟨i0, Finset.mem_univ _, Real.sqrt_pos.mpr hd0⟩
    have hs : 0 < Real.sqrt 2 /
        ((∑ i, Real.sqrt (((pts2 i).1 - (∑ j, (pts2 j).1) / n) ^ 2 +
          ((pts2 i).2 - (∑ j, (pts2 j).2) / n) ^ 2)) / n) :=
      div_pos (Real.sqrt_pos.mpr (by norm_num)) hmd
    refine ⟨?_, ?_, ?_, ?_⟩
    · simp only [normalize_2d_points]
      rw [← Finset.mul_sum, sum_sub_mean hnR, mul_zero, zero_div]
    · simp only [normalize_2d_points]
      rw [← Finset.mul_sum, sum_sub_mean hnR, mul_zero, zero_div]
    · simp only [normalize_2d_points]
      rw [Finset.sum_congr rfl fun i _ => sqrt_scaled _ _ _ hs.le,
        ← Finset.mul_sum, mul_div_assoc]
      exact div_mul_cancel₀ _ hmd.ne'
    · simp only [normalize_2d_points]
      funext r
      fin_cases r <;>
        simp [Matrix.mulVec, Matrix.dotProduct, Fin.sum_univ_three] <;> ring
  · -- 3D part
    obtain ⟨iw, jw, hij⟩ := h3
    have hnR : (m : ℝ) ≠ 0 := by
      have := iw.pos
      positivity
    have hoff : ∃ i0, pts3 i0 ≠
        ((∑ i, (pts3 i).1) / m,
         (∑ i, (pts3 i).2.1) / m, (∑ i, (pts3 i).2.2) / m) := by
      by_contra hall
      push_neg at hall
      exact hij ((hall iw).trans (hall jw).symm)
    obtain ⟨i0, hi0⟩ := hoff
    have hd0 : 0 < ((pts3 i0).1 - (∑ i, (pts3 i).1) / m) ^ 2 +
        ((pts3 i0).2.1 - (∑ i, (pts3 i).2.1) / m) ^ 2 +
          ((pts3 i0).2.2 - (∑ i, (pts3 i).2.2) / m) ^ 2 := by
      have hne : (pts3 i0).1 - (∑ i, (pts3 i).1) / m ≠ 0 ∨
          (pts3 i0).2.1 - (∑ i, (pts3 i).2.1) / m ≠ 0 ∨
          (pts3 i0).2.2 - (∑ i, (pts3 i).2.2) / m ≠ 0 := by
        by_contra hcon
        push_neg at hcon
        apply hi0
        have e1 : (pts3 i0).1 = (∑ i, (pts3 i).1) / m := by
          have := hcon.1; linarith
        have e2 : (pts3 i0).2.1 = (∑ i, (pts3 i).2.1) / m := by
          have := hcon.2.1; linarith
        have e3 : (pts3 i0).2.2 = (∑ i, (pts3 i).2.2) / m := by
          have := hcon.2.2; linarith
        exact Prod.ext e1 (Prod.ext e2 e3)
      rcases hne with hne | hne | hne
      · nlinarith [pow_two_pos_of_ne_zero hne,
          sq_nonneg ((pts3 i0).2.1 - (∑ i, (pts3 i).2.1) / m),
          sq_nonneg ((pts3 i0).2.2 - (∑ i, (pts3 i).2.2) / m)]
      · nlinarith [pow_two_pos_of_ne_zero hne,
          sq_nonneg ((pts3 i0).1 - (∑ i, (pts3 i).1) / m),
          sq_nonneg ((pts3 i0).2.2 - (∑ i, (pts3 i).2.2) / m)]
      · nlinarith [pow_two_pos_of_ne_zero hne,
          sq_nonneg ((pts3 i0).1 - (∑ i, (pts3 i).1) / m),
          sq_nonneg ((pts3 i0).2.1 - (∑ i, (pts3 i).2.1) / m)]
    have hmd : 0 < (∑ i, Real.sqrt (((pts3 i).1 - (∑ j, (pts3 j).1) / m) ^ 2 +
        ((pts3 i).2.1 - (∑ j, (pts3 j).2.1) / m) ^ 2 +
          ((pts3 i).2.2 - (∑ j, (pts3 j).2.2) / m) ^ 2)) / m := by
      apply div_pos ?_ (by
        have := iw.pos
        positivity)
      refine Finset.sum_pos' (fun i _ => Real.sqrt_nonneg _)
        ⟨i0, Finset.mem_univ _, Real.sqrt_pos.mpr hd0⟩
    have hs : 0 < Real.sqrt 3 /
        ((∑ i, Real.sqrt (((pts3 i).1 - (∑ j, (pts3 j).1) / m) ^ 2 +
          ((pts3 i).2.1 - (∑ j, (pts3 j).2.1) / m) ^ 2 +
            ((pts3 i).2.2 - (∑ j, (pts3 j).2.2) / m) ^ 2)) / m) :=
      div_pos (Real.sqrt_pos.mpr (by norm_num)) hmd
    refine ⟨?_, ?_, ?_, ?_, ?_⟩
    · simp only [normalize_3d_points]
      rw [← Finset.mul_sum, sum_sub_mean hnR, mul_zero, zero_div]
    · simp only [normalize_3d_points]
      rw [← Finset.mul_sum, sum_sub_mean hnR, mul_zero, zero_div]
    · simp only [normalize_3d_points]
      rw [← Finset.mul_sum, sum_sub_mean hnR, mul_zero, zero_div]
    · simp only [normalize_3d_points]
      rw [Finset.sum_congr rfl fun i _ => sqrt_scaled3 _ _ _ _ hs.le,
        ← Finset.mul_sum, mul_div_assoc]
      exact div_mul_cancel₀ _ hmd.ne'
    · simp only [normalize_3d_points]
      funext r
      fin_cases r <;>
        simp [Matrix.mulVec, Matrix.dotProduct, Fin.sum_univ_four] <;> ring

/-! ### C4 -/

theorem sum_univ_twelve (f : Fin 12 → ℝ) : ∑ i, f i =
    f 0 + (f 1 + (f 2 + (f 3 + (f 4 + (f 5 + (f 6 + (f 7 + (f 8 + (f 9 +
      (f 10 + f 11)))))))))) := by
  simp [Fin.sum_univ_succ]
  rfl

theorem dlt_row_even {n : ℕ} (Xp : Fin n → ℝ × ℝ × ℝ) (xp : Fin n → ℝ × ℝ)
    (i : Fin n) (c : Fin 12) :
    dltSystem Xp xp ⟨2 * i.1, by have := i.2; omega⟩ c =
      (if (c : ℕ) < 4 then 0 else if (c : ℕ) < 8 then -(homogN (Xp i) ((c : ℕ) - 4))
       else (xp i).2 * homogN (Xp i) ((c : ℕ) - 8)) := by
  have hmod : (2 * i.1) % 2 = 0 := Nat.mul_mod_right 2 i.1
  have hdiv : 2 * i.1 / 2 = i.1 := by omega
  simp only [dltSystem, Matrix.of_apply, hmod, hdiv, Fin.eta, if_true]

theorem dlt_row_odd {n : ℕ} (Xp : Fin n → ℝ × ℝ × ℝ) (xp : Fin n → ℝ × ℝ)
    (i : Fin n) (c : Fin 12) :
    dltSystem Xp xp ⟨2 * i.1 + 1, by have := i.2; omega⟩ c =
      (if (c : ℕ) < 4 then homogN (Xp i) (c : ℕ)
       else if (c : ℕ) < 8 then 0
       else -((xp i).1) * homogN (Xp i) ((c : ℕ) - 8)) := by
  have hmod : (2 * i.1 + 1) % 2 = 1 := by omega
  have hdiv : (2 * i.1 + 1) / 2 = i.1 := by omega
  simp only [dltSystem, Matrix.of_apply, hmod, hdiv, Fin.eta]
  simp

theorem dlt_mulVec_even {n : ℕ} (Xp : Fin n → ℝ × ℝ × ℝ) (xp : Fin n → ℝ × ℝ)
    (p : Fin 12 → ℝ) (i : Fin n) :
    (dltSystem Xp xp).mulVec p ⟨2 * i.1, by have := i.2; omega⟩ =
      -((Xp i).1 * p 4 + (Xp i).2.1 * p 5 + (Xp i).2.2 * p 6 + p 7)
      + (xp i).2 * ((Xp i).1 * p 8 + (Xp i).2.1 * p 9 + (Xp i).2.2 * p 10 + p 11) := by
  simp only [Matrix.mulVec, Matrix.dotProduct]
  rw [sum_univ_twelve]
  simp only [dlt_row_even]
  simp +decide [homogN]
  ring

theorem dlt_mulVec_odd {n : ℕ} (Xp : Fin n → ℝ × ℝ × ℝ) (xp : Fin n → ℝ × ℝ)
    (p : Fin 12 → ℝ) (i : Fin n) :
    (dltSystem Xp xp).mulVec p ⟨2 * i.1 + 1, by have := i.2; omega⟩ =
      ((Xp i).1 * p 0 + (Xp i).2.1 * p 1 + (Xp i).2.2 * p 2 + p 3)
      - (xp i).1 * ((Xp i).1 * p 8 + (Xp i).2.1 * p 9 + (Xp i).2.2 * p 10 + p 11) := by
  simp only [Matrix.mulVec, Matrix.dotProduct]
  rw [sum_univ_twelve]
  simp only [dlt_row_odd]
  simp +decide [homogN]
  ring

theorem reshape_mulVec (p : Fin 12 → ℝ) (X : ℝ × ℝ × ℝ) :
    (reshape3x4 p).mulVec (homog4fin X) =
      ![p 0 * X.1 + p 1 * X.2.1 + p 2 * X.2.2 + p 3,
        p 4 * X.1 + p 5 * X.2.1 + p 6 * X.2.2 + p 7,
        p 8 * X.1 + p 9 * X.2.1 + p 10 * X.2.2 + p 11] := by
  funext k
  fin_cases k <;>
    · simp [Matrix.mulVec, Matrix.dotProduct, Fin.sum_univ_four, reshape3x4,
        homog4fin, Matrix.of_apply]
      try rfl

/-- C4: the DLT system of `camera_matrix` is `2N x 12` (two rows per
correspondence) and row pair `2i, 2i+1` evaluated against any 12-vector
`p` gives the first two components of the cross product
`x_i × (P · X_i)` (with `P` the 3x4 reshape of `p`), so each row pair
encodes the cross-product constraint on the normalized points; and the
returned matrix is `T⁻¹ · P_normalized · U` where `P_normalized` reshapes
the last row of the `V^T` factor of the SVD of the system built on the
normalized points (the right singular vector of the smallest singular
value, by the contract of the external `np.linalg.svd`). -/
theorem camera_matrix_dlt_structure {n : ℕ}
    (svdVT : Matrix (Fin (2 * n)) (Fin 12) ℝ → Matrix (Fin 12) (Fin 12) ℝ)
    (X Xp : Fin n → ℝ × ℝ × ℝ) (x xp : Fin n → ℝ × ℝ)
    (p : Fin 12 → ℝ) (i : Fin n) :
    (dltSystem Xp xp).mulVec p ⟨2 * i.1, by have := i.2; omega⟩ =
      cross3v (imgHomog (xp i)) ((reshape3x4 p).mulVec (homog4fin (Xp i))) 0
    ∧ (dltSystem Xp xp).mulVec p ⟨2 * i.1 + 1, by have := i.2; omega⟩ =
      cross3v (imgHomog (xp i)) ((reshape3x4 p).mulVec (homog4fin (Xp i))) 1
    ∧ camera_matrix svdVT X x =
        inverse3R (normalize_2d_points x).2 *
          reshape3x4 (fun j => svdVT (dltSystem (normalize_3d_points X).1
            (normalize_2d_points x).1) 11 j) * (normalize_3d_points X).2 := by
  refine ⟨?_, ?_, rfl⟩
  · rw [dlt_mulVec_even, reshape_mulVec]
    simp [cross3v, imgHomog]
    ring
  · rw [dlt_mulVec_odd, reshape_mulVec]
    simp [cross3v, imgHomog]
    ring

/-- C8 witness: the normalization statement on concrete two-point sets. -/
theorem normalize_points_similarity_witness :
    (∃ i j, wpts2 i ≠ wpts2 j) ∧ (∃ i j, wpts3 i ≠ wpts3 j)
    ∧ (∑ i, Real.sqrt (((normalize_2d_points wpts2).1 i).1 ^ 2 +
        ((normalize_2d_points wpts2).1 i).2 ^ 2)) / (2 : ℕ) = Real.sqrt 2
    ∧ (∑ i, Real.sqrt (((normalize_3d_points wpts3).1 i).1 ^ 2 +
        ((normalize_3d_points wpts3).1 i).2.1 ^ 2 +
          ((normalize_3d_points wpts3).1 i).2.2 ^ 2)) / (2 : ℕ) = Real.sqrt 3 := by
  have h2 : ∃ i j, wpts2 i ≠ wpts2 j := by
    refine ⟨0, 1, ?_⟩
    simp [wpts2, Prod.ext_iff]
  have h3 : ∃ i j, wpts3 i ≠ wpts3 j := by
    refine ⟨0, 1, ?_⟩
    simp [wpts3, Prod.ext_iff]
  exact ⟨h2, h3,
    (normalize_points_similarity wpts2 wpts3 0 0 h2 h3).1.2.2.1,
    (normalize_points_similarity wpts2 wpts3 0 0 h2 h3).2.2.2.2.1⟩
